import Mathlib

/-!
Shallow embedding of the olive PI (GCS2) motion-controller driver
(`olive/drivers/pi/generic.py`) together with the spec-level frame-ring
model, and proofs about the claims of the specification.
-/

namespace Olive

/-! ### Python string primitives used by the driver -/

/-- The ASCII whitespace characters matched by Python `str.strip` and the
regular-expression class `\s`. -/
def pyIsSpace (c : Char) : Bool :=
  c = ' ' || c = '\t' || c = '\n' || c = '\r' || c = '\x0b' || c = '\x0c'

/-- Python `str.strip()` on a character list: drop whitespace from both ends. -/
def pyStripList (l : List Char) : List Char :=
  ((l.dropWhile pyIsSpace).reverse.dropWhile pyIsSpace).reverse

/-- Python `str.strip()`. -/
def pyStrip (s : String) : String :=
  String.mk (pyStripList s.data)

/-- Python `str.lower()` (ASCII model, as in `Char.toLower`). -/
def pyToLowerStr (s : String) : String :=
  String.mk (s.data.map Char.toLower)

/-- Python `"needle" in haystack` substring test. -/
def containsSub (needle hay : List Char) : Bool :=
  (List.range (hay.length + 1)).any fun i => needle.isPrefixOf (hay.drop i)

/-- Python `int(v)` applied to a float truncates toward zero; on a rational
this is the numerator divided by the denominator with round-toward-zero
division (`Int.tdiv`, so that for example `-7/2` gives `-3` like Python's
`int(-3.5)`, not the floor `-4`). -/
def truncInt (q : Rat) : Int :=
  Int.tdiv q.num (q.den : Int)

/-- Python `l[:k]` slicing with a possibly negative bound `k`. -/
def pySlice (k : Int) (l : List α) : List α :=
  if 0 ≤ k then l.take k.toNat else l.take (l.length - (-k).toNat)

/-! ### Values returned by `PIAxis.get_property` -/

/-- A single native numeric value as surfaced by the driver. -/
inductive PIScalar
  | int : Int → PIScalar
  | real : Rat → PIScalar
  deriving DecidableEq, Repr

/-- The value returned by `PIAxis.get_property`: a raw string for `char`
parameters, a single scalar when `max_item == 1`, a list otherwise. -/
inductive PIPropValue
  | str : String → PIPropValue
  | scalar : PIScalar → PIPropValue
  | list : List PIScalar → PIPropValue
  deriving DecidableEq, Repr

/-- Model of `PIAxis.get_property` after the catalog lookup: `dtype` and `maxItem` come
from the parameter catalog, `valueNum`/`valueStr` are the two components the
native `get_parameter` call returns.  Mirrors:
`value_num = value_num[:max_item]`, integer conversion when `dtype == "int"`,
and `value_num[0] if max_item == 1 else value_num` (`none` is the
`IndexError` raised when the native list is empty and `max_item == 1`). -/
def getPropertyValue (dtype : String) (maxItem : Int) (valueNum : List Rat)
    (valueStr : String) : Option PIPropValue :=
  if dtype = "char" then some (.str valueStr)
  else
    let vn := pySlice maxItem valueNum
    let vals := if dtype = "int" then vn.map (fun v => PIScalar.int (truncInt v))
                else vn.map PIScalar.real
    if maxItem = 1 then vals.head?.map PIPropValue.scalar
    else some (.list vals)

/-! ### `PIAxis.set_property` and the error taxonomy -/

/-- Errors relevant to the property-setting contract. -/
inductive PIError
  | notImplemented
  | propertyNotWritable
  deriving DecidableEq, Repr

/-- Model of `PIAxis.set_property`: the method body is `raise NotImplementedError`. -/
def setProperty (_name : String) (_value : PIPropValue) : Except PIError Unit :=
  .error .notImplemented

/-! ### Controller session state (`PIController.__init__`, `_open`, `_close`,
`is_opened`) -/

/-- Parameter-catalog entry: `(pid, dtype, max_item)` as stored by
`PIController._get_available_parameters`. -/
structure ParamInfo where
  pid : Nat
  dtype : String
  maxItem : Int
  deriving DecidableEq, Repr

/-- The name-keyed parameter catalog (Python `dict`, last write wins). -/
abbrev ParamMap := List (String × ParamInfo)

/-- The mutable state of a `PIController` object: the native handle
(`self._handle`, `None` before `_open` and after `_close`) and the
`lru_cache` slot of `_get_available_parameters`. -/
structure PIControllerState where
  handle : Option Nat
  paramsCache : Option ParamMap
  deriving DecidableEq, Repr

/-- Model of `PIController.__init__`: `self._handle = None`, no cache yet. -/
def initController : PIControllerState :=
  { handle := none, paramsCache := none }

/-- Model of `PIController._open`: stores the connected controller id in the handle. -/
def openController (ctrlId : Nat) (s : PIControllerState) : PIControllerState :=
  { s with handle := some ctrlId }

/-- Model of `PIController._close`: `self._handle = None`. -/
def closeController (s : PIControllerState) : PIControllerState :=
  { s with handle := none }

/-- Model of `PIController.is_opened`: `self.handle is not None`. -/
def isOpened (s : PIControllerState) : Bool :=
  s.handle.isSome

/-! ### `PIController._retrieve_large_response` -/

/-- The driver's test for the buffer-overflow sub-case of a native error:
Python `"overflow" in str(err)`. -/
def isOverflowError (msg : String) : Bool :=
  containsSub "overflow".data msg.data

/-- The retry loop of `PIController._retrieve_large_response`, with explicit
fuel (the loop runs at most `log2 (maxSize / nbytes) + 1` times since the
size doubles, so any sufficiently large fuel realizes the Python loop).
`.error err` models the re-raised native error, `.ok none` the fall-through
`return response` with `response` still `None`, `.ok (some r)` a successful
read (stripped when `strip` is set). -/
def retrieveAux (func : Nat → Except String String) (maxSize : Nat)
    (strip : Bool) : Nat → Nat → Except String (Option String)
  | 0, _ => .ok none
  | fuel + 1, nbytes =>
    if nbytes < maxSize then
      match func nbytes with
      | .ok response => .ok (some (if strip then pyStrip response else response))
      | .error err =>
        if isOverflowError err then
          retrieveAux func maxSize strip fuel (nbytes * 2)
        else .error err
    else .ok none

/-- Model of `PIController._retrieve_large_response(func)` with its default arguments:
`start_size=1024`, `max_size=2**20`, `strip=True`. -/
def retrieveLargeResponse (func : Nat → Except String String) :
    Except String (Option String) :=
  retrieveAux func (2 ^ 20) true 64 1024

/-! ### FrameRing (spec-modelled) -/

/-- Modelled from the spec: the streaming frame-acquisition engine (the
camera-side `FrameRing` of spec §3/§4.3) is not among the sources of this
repository — only the PI motion-controller driver is — so the ring state is
taken from the spec's data model: a fixed `capacity` and a nullable
`lastConsumedIndex` (null before the first extraction). -/
structure FrameRing where
  capacity : Nat
  lastConsumedIndex : Option Nat
  deriving DecidableEq, Repr

/-- Modelled from the spec: `FrameRing.observeProduction` computes
`backlog = (currentIndex - lastConsumedIndex) mod capacity`, with backlog
defined as 1 before any extraction once at least one frame has been
produced, and a computed backlog of 0 after the first frame treated as a
full wrap of `capacity`. -/
def observeProduction (r : FrameRing) (currentIndex totalFramesProduced : Nat) :
    Nat :=
  match r.lastConsumedIndex with
  | none => if 1 ≤ totalFramesProduced then 1 else 0
  | some last =>
    let b := (((currentIndex : Int) - (last : Int)) % (r.capacity : Int)).toNat
    if b = 0 then r.capacity else b

/-! ### `PIController._get_available_parameters`: name normalization -/

/-- Characters matched by the regular-expression class `[\-\s]`. -/
def isHyphenOrSpace (c : Char) : Bool :=
  c = '-' || pyIsSpace c

/-- Structural model of `re.sub(r"[\-\s]+", "_", ...)`: the boolean is true
iff the list starts with a hyphen/whitespace character, so that a separator
run already begun to the right absorbs further separator characters. -/
def reSubAux : List Char → Bool × List Char
  | [] => (false, [])
  | c :: rest =>
    let p := reSubAux rest
    if isHyphenOrSpace c then (true, if p.1 then p.2 else '_' :: p.2)
    else (false, c :: p.2)

/-- Model of `re.sub(r"[\-\s]+", "_", s)`: every maximal run of hyphens and
whitespace becomes a single underscore. -/
def reSubRuns (l : List Char) : List Char :=
  (reSubAux l).2

/-- The full name normalization of `_get_available_parameters`:
`desc.lower()`, then `desc.split("(")[0].strip()`, then
`re.sub(r"[\-\s]+", "_", desc)`, then `re.sub(r"[^0-9a-zA-Z_]+", "", desc)`. -/
def normalizeName (s : String) : String :=
  let l := s.data.map Char.toLower
  let l := l.takeWhile (fun c => c ≠ '(')
  let l := pyStripList l
  let l := reSubRuns l
  String.mk (l.filter (fun c => c.isAlphanum || c = '_'))

/-- The transformation claimed by the spec sentence for C5: lower-case the
display name and replace whitespace by underscores, altering nothing else. -/
def specKeyOf (s : String) : String :=
  String.mk (s.data.map (fun c => if pyIsSpace c then '_' else Char.toLower c))

/-- The run-collapsing step as worded in the amended claim: each maximal run
of hyphens/whitespace is replaced by one underscore (independent
formulation, recursing past whole runs). -/
def specCollapseRuns : List Char → List Char
  | [] => []
  | c :: rest =>
    if isHyphenOrSpace c then
      '_' :: specCollapseRuns (rest.dropWhile (fun d => isHyphenOrSpace d))
    else c :: specCollapseRuns rest
termination_by l => l.length
decreasing_by
· have h : (rest.dropWhile (fun d => isHyphenOrSpace d)).length ≤ rest.length :=
    (List.dropWhile_sublist _).length_le
  simp only [List.length_cons]
  omega
· simp [List.length_cons]

/-- The amended claim's key formation: lower-case, truncate at the first
`(`, strip, collapse hyphen/whitespace runs to single underscores, and drop
every remaining character outside `[0-9a-zA-Z_]`. -/
def specNormalizedKey (s : String) : String :=
  let l := (s.data.map Char.toLower).takeWhile (fun c => c ≠ '(')
  String.mk ((specCollapseRuns (pyStripList l)).filter
    (fun c => c.isAlphanum || c = '_'))

/-- Characters allowed in a catalog key: lowercase letters, digits,
underscore. -/
def isKeyChar (c : Char) : Bool :=
  c.isLower || c.isDigit || c = '_'

/-! ### `PIController._get_available_parameters`: response parsing -/

/-- Python `line.split(sep, maxsplit=1)` when the separator occurs:
the parts before and after the first occurrence. -/
def splitFirst (sep : Char) : List Char → Option (List Char × List Char)
  | [] => none
  | c :: rest =>
    if c = sep then some ([], rest)
    else (splitFirst sep rest).map (fun p => (c :: p.1, p.2))

/-- Python `s.split(sep)` for a one-character separator. -/
def splitChar (sep : Char) : List Char → List (List Char)
  | [] => [[]]
  | c :: rest =>
    let r := splitChar sep rest
    if c = sep then [] :: r
    else
      match r with
      | [] => [[c]]
      | h :: t => (c :: h) :: t

/-- Python `line.startswith("0x")`. -/
def startsWith0x : List Char → Bool
  | '0' :: 'x' :: _ => true
  | _ => false

/-- Value of one hexadecimal digit. -/
def hexDigitVal (c : Char) : Option Nat :=
  if c.isDigit then some (c.toNat - 48)
  else if 97 ≤ c.toNat ∧ c.toNat ≤ 102 then some (c.toNat - 87)
  else if 65 ≤ c.toNat ∧ c.toNat ≤ 70 then some (c.toNat - 55)
  else none

/-- Python `int(s, 16)` on the parameter-id field (whitespace stripped,
optional `0x`/`0X` marker, hex digits; `none` models `ValueError`). -/
def parseHexNat (l : List Char) : Option Nat :=
  let t := pyStripList l
  let t := match t with
    | '0' :: 'x' :: r => r
    | '0' :: 'X' :: r => r
    | other => other
  if t = [] then none
  else t.foldl (fun acc c =>
    acc.bind (fun n => (hexDigitVal c).map (fun d => 16 * n + d))) (some 0)

/-- Python `int(s)` on the `MaxItem` field (whitespace stripped, optional
sign, decimal digits; `none` models `ValueError`). -/
def parseIntPy (l : List Char) : Option Int :=
  let t := pyStripList l
  let p : Int × List Char :=
    match t with
    | '-' :: rest => (-1, rest)
    | '+' :: rest => (1, rest)
    | other => (1, other)
  if p.2 ≠ [] ∧ p.2.all Char.isDigit then
    some (p.1 * ((p.2.foldl (fun n c => 10 * n + (c.toNat - 48)) 0 : Nat) : Int))
  else none

/-- Parsing one `0x`-prefixed response line:
`pid, desc = line.split("=", maxsplit=1)`, `pid = int(pid, 16)`,
`desc = desc.strip()`, tab-split into
`cmd_level, max_item, dtype, _, desc, *options` (at least five fields),
then name normalization and `dtype.lower(), int(max_item)`.  `none` models
the `ValueError` such a line raises. -/
def parse0xLine (line : List Char) : Option (String × ParamInfo) :=
  (splitFirst '=' line).bind fun p =>
    (parseHexNat p.1).bind fun pid =>
      match splitChar '\t' (pyStripList p.2) with
      | _ :: maxItemStr :: dtypeStr :: _ :: descName :: _ =>
        (parseIntPy maxItemStr).map fun maxItem =>
          (normalizeName (String.mk descName),
           { pid := pid, dtype := String.mk (dtypeStr.map Char.toLower),
             maxItem := maxItem })
      | _ => none

/-- One iteration of the response loop: lines not starting with `0x` are
skipped (`continue`), malformed `0x` lines raise (`.error`). -/
def parseParamLine (line : List Char) : Except Unit (Option (String × ParamInfo)) :=
  if startsWith0x line then
    match parse0xLine line with
    | some e => .ok (some e)
    | none => .error ()
  else .ok none

/-- Python `dict` assignment `pids[desc] = ...`: overwrite or append. -/
def insertParam (m : ParamMap) (k : String) (v : ParamInfo) : ParamMap :=
  if m.any (fun p => p.1 = k) then
    m.map (fun p => if p.1 = k then (k, v) else p)
  else m ++ [(k, v)]

/-- The `for line in response.split("\n")` loop body of
`_get_available_parameters`. -/
def getParamsGo : List (List Char) → ParamMap → Option ParamMap
  | [], acc => some acc
  | l :: rest, acc =>
    match parseParamLine l with
    | .error _ => none
    | .ok none => getParamsGo rest acc
    | .ok (some (k, v)) => getParamsGo rest (insertParam acc k v)

/-- Model of `PIController._get_available_parameters` applied to an already-retrieved
response string. -/
def getAvailableParameters (response : String) : Option ParamMap :=
  getParamsGo (splitChar '\n' response.data) []

/-- Model of `_get_available_parameters` including the `_retrieve_large_response`
call; `none` collapses every exception path (native error, or `None`
response making `response.split` raise). -/
def getAvailableParametersFromDevice (query : Nat → Except String String) :
    Option ParamMap :=
  match retrieveLargeResponse query with
  | .error _ => none
  | .ok none => none
  | .ok (some response) => getAvailableParameters response

/-- The `lru_cache(maxsize=1)` wrapper on `_get_available_parameters`:
a cached value is returned without consulting the device; a successful
uncached call populates the cache; an exception caches nothing. -/
def getAvailableParametersCached (query : Nat → Except String String)
    (s : PIControllerState) : Option ParamMap × PIControllerState :=
  match s.paramsCache with
  | some m => (some m, s)
  | none =>
    match getAvailableParametersFromDevice query with
    | some m => (some m, { s with paramsCache := some m })
    | none => (none, s)

/-! ### Theorems for the easy claims -/

/-- C10: `is_opened` is true exactly when the session holds a native handle:
false on the fresh object, true after `_open` stores a handle, false again
after `_close` clears it. -/
theorem isOpened_lifecycle :
    isOpened initController = false
    ∧ (∀ (s : PIControllerState) (ctrlId : Nat),
        isOpened (openController ctrlId s) = true)
    ∧ (∀ s : PIControllerState, isOpened (closeController s) = false)
    ∧ (∀ s : PIControllerState, isOpened s = true ↔ s.handle ≠ none) := by
  refine ⟨rfl, fun s ctrlId => rfl, fun s => rfl, fun s => ?_⟩
  cases h : s.handle <;> simp [isOpened, h]

/-- C10, witness instance: opening then closing a fresh session leaves
`is_opened` false. -/
theorem isOpened_lifecycle_witness :
    isOpened (closeController (openController 7 initController)) = false :=
  isOpened_lifecycle.2.2.1 (openController 7 initController)

/-- C4 counterexample: `set_property` raises `NotImplementedError` on every
call, so it neither fails with the property-contract error
`PropertyNotWritableError` (for a non-writable property) nor lets a write
proceed (for a writable one). -/
theorem setProperty_counterexample :
    setProperty "velocity" (PIPropValue.scalar (PIScalar.int 5))
      = Except.error PIError.notImplemented
    ∧ setProperty "velocity" (PIPropValue.scalar (PIScalar.int 5))
      ≠ Except.error PIError.propertyNotWritable
    ∧ setProperty "velocity" (PIPropValue.scalar (PIScalar.int 5))
      ≠ Except.ok () := by
  refine ⟨rfl, ?_, ?_⟩ <;> simp [setProperty]

/-- C4 amended: `PIAxis.set_property` unconditionally fails with
`NotImplementedError`, for every property name and value, regardless of the
descriptor's writability; no write ever proceeds. -/
theorem setProperty_always_notImplemented (name : String) (value : PIPropValue) :
    setProperty name value = Except.error PIError.notImplemented :=
  rfl

/-- C3 counterexample: for an array-valued property (`max_item = 2`) the
driver returns the whole (truncated) native list, not only its first
element. -/
theorem getPropertyValue_array_counterexample :
    getPropertyValue "float" 2 [3, 4, 5] ""
      = some (PIPropValue.list [PIScalar.real 3, PIScalar.real 4])
    ∧ getPropertyValue "float" 2 [3, 4, 5] ""
      ≠ some (PIPropValue.scalar (PIScalar.real 3)) := by
  constructor
  · rfl
  · simp [getPropertyValue, pySlice]

/-- C3 amended: for every array-valued property (`element_count > 1`, i.e.
`max_item > 1`) of non-`char` dtype, `get_property` returns the list of the
first `max_item` native values (each decoded by kind), not a single first
element, and no truncating-to-one-element happens. -/
theorem getPropertyValue_array_returns_whole (dtype : String) (maxItem : Int)
    (valueNum : List Rat) (valueStr : String)
    (hchar : dtype ≠ "char") (hgt : 1 < maxItem) :
    getPropertyValue dtype maxItem valueNum valueStr
      = some (PIPropValue.list ((valueNum.take maxItem.toNat).map
          (fun v => if dtype = "int" then PIScalar.int (truncInt v)
                    else PIScalar.real v))) := by
  have hne : maxItem ≠ 1 := by omega
  have hpos : (0 : Int) ≤ maxItem := by omega
  simp only [getPropertyValue, pySlice, if_neg hchar, if_pos hpos, if_neg hne]
  by_cases hint : dtype = "int" <;> simp [hint]

/-- C3 amended, witness instance: a two-element `int` array with a negative
non-integer native, each element truncated toward zero. -/
theorem getPropertyValue_array_returns_whole_witness :
    getPropertyValue "int" 2 [Rat.mk' (-7) 2, 4, 5] ""
      = some (PIPropValue.list [PIScalar.int (-3), PIScalar.int 4]) := by
  have h := getPropertyValue_array_returns_whole "int" 2 [Rat.mk' (-7) 2, 4, 5] ""
    (by decide) (by decide)
  rw [h]
  decide

/-- C6: value decoding by declared kind in `PIAxis.get_property`: `char`
(Text) passes the raw native string through unchanged, `int`
(Numeric-integer) truncates each native value to an integer, and every other
numeric dtype (Numeric-real) keeps the native value as is — both in the
single-element and in the array case. -/
theorem getPropertyValue_decode (maxItem : Int) (valueNum : List Rat)
    (valueStr : String) :
    (∀ dtype, dtype = "char" →
      getPropertyValue dtype maxItem valueNum valueStr
        = some (PIPropValue.str valueStr))
    ∧ (maxItem = 1 →
        getPropertyValue "int" maxItem valueNum valueStr
          = valueNum.head?.map fun v =>
              PIPropValue.scalar (PIScalar.int (truncInt v)))
    ∧ (∀ dtype, dtype ≠ "char" → dtype ≠ "int" → maxItem = 1 →
        getPropertyValue dtype maxItem valueNum valueStr
          = valueNum.head?.map fun v => PIPropValue.scalar (PIScalar.real v))
    ∧ (maxItem ≠ 1 → 0 ≤ maxItem →
        getPropertyValue "int" maxItem valueNum valueStr
          = some (PIPropValue.list ((valueNum.take maxItem.toNat).map
              fun v => PIScalar.int (truncInt v))))
    ∧ (∀ dtype, dtype ≠ "char" → dtype ≠ "int" → maxItem ≠ 1 → 0 ≤ maxItem →
        getPropertyValue dtype maxItem valueNum valueStr
          = some (PIPropValue.list ((valueNum.take maxItem.toNat).map
              PIScalar.real))) := by
  refine ⟨?_, ?_, ?_, ?_, ?_⟩
  · intro dtype h
    simp [getPropertyValue, h]
  · intro h1
    subst h1
    cases valueNum <;> simp [getPropertyValue, pySlice]
  · intro dtype hc hi h1
    subst h1
    cases valueNum <;> simp [getPropertyValue, pySlice, hc, hi]
  · intro hne hpos
    simp [getPropertyValue, pySlice, hne, hpos]
  · intro dtype hc hi hne hpos
    simp [getPropertyValue, pySlice, hc, hi, hne, hpos]

/-- C6, witness instance: an `int` parameter with native value `7/2` decodes
to the truncated integer `3`, native `-7/2` decodes to `-3` (toward zero,
like Python `int(-3.5)`, not the floor `-4`), and a `char` parameter passes
its string through. -/
theorem getPropertyValue_decode_witness :
    getPropertyValue "int" 1 [Rat.mk' 7 2] "raw"
      = some (PIPropValue.scalar (PIScalar.int 3))
    ∧ getPropertyValue "int" 1 [Rat.mk' (-7) 2] "raw"
      = some (PIPropValue.scalar (PIScalar.int (-3)))
    ∧ getPropertyValue "char" 1 [Rat.mk' 7 2] "raw"
      = some (PIPropValue.str "raw") := by
  refine ⟨?_, ?_, ?_⟩
  · have h := (getPropertyValue_decode 1 [Rat.mk' 7 2] "raw").2.1 rfl
    rw [h]
    decide
  · have h := (getPropertyValue_decode 1 [Rat.mk' (-7) 2] "raw").2.1 rfl
    rw [h]
    decide
  · exact (getPropertyValue_decode 1 [Rat.mk' 7 2] "raw").1 "char" rfl

/-- C2: in the large-response retry loop, a retry happens only for the
buffer-overflow sub-case — the overflow branch re-enters the loop with the
buffer size doubled — while any other native error is re-raised unchanged;
and once the size reaches the hard ceiling the loop stops issuing queries
altogether. -/
theorem retrieve_retry_only_on_overflow (func : Nat → Except String String)
    (maxSize fuel nbytes : Nat) (strip : Bool) (err : String)
    (hlt : nbytes < maxSize) (herr : func nbytes = .error err) :
    (isOverflowError err = false →
      retrieveAux func maxSize strip (fuel + 1) nbytes = .error err)
    ∧ (isOverflowError err = true →
      retrieveAux func maxSize strip (fuel + 1) nbytes
        = retrieveAux func maxSize strip fuel (nbytes * 2))
    ∧ (∀ m, maxSize ≤ m →
      retrieveAux func maxSize strip (fuel + 1) m = .ok none) := by
  refine ⟨?_, ?_, ?_⟩
  · intro hov
    simp [retrieveAux, hlt, herr, hov]
  · intro hov
    simp [retrieveAux, hlt, herr, hov]
  · intro m hm
    have : ¬ m < maxSize := by omega
    simp [retrieveAux, this]

/-- C2, witness instance: a non-overflow native error at the first requested
size propagates unchanged. -/
theorem retrieve_retry_only_on_overflow_witness :
    retrieveAux (fun _ => .error "bad handle") 8 true 1 4
      = .error "bad handle" := by
  have h := (retrieve_retry_only_on_overflow (fun _ => .error "bad handle")
    8 0 4 true "bad handle" (by decide) rfl).1
  exact h (by decide)

/-- C8: if the native query reports a buffer overflow at every requested
size, the retry loop terminates once the doubled size reaches the hard
ceiling and returns `None` to the caller, raising no exception. -/
theorem retrieve_all_overflow_returns_none (func : Nat → Except String String)
    (hover : ∀ n, ∃ err, func n = .error err ∧ isOverflowError err = true) :
    retrieveLargeResponse func = .ok none := by
  have main : ∀ (maxSize fuel nbytes : Nat),
      retrieveAux func maxSize true fuel nbytes = .ok none := by
    intro maxSize fuel
    induction fuel with
    | zero => intro nbytes; simp [retrieveAux]
    | succ n ih =>
      intro nbytes
      by_cases h : nbytes < maxSize
      · obtain ⟨err, he, ho⟩ := hover nbytes
        simp [retrieveAux, h, he, ho, ih]
      · simp [retrieveAux, h]
  exact main (2 ^ 20) 64 1024

/-- C8, witness instance. -/
theorem retrieve_all_overflow_returns_none_witness :
    retrieveLargeResponse (fun _ => .error "buffer overflow") = .ok none :=
  retrieve_all_overflow_returns_none (fun _ => .error "buffer overflow")
    (fun _ => ⟨"buffer overflow", rfl, by decide⟩)

/-- C1: for every capacity `C ≥ 1` and every observation (hence every
reachable ring state), the computed backlog satisfies `0 ≤ backlog ≤ C`;
after the first frame it is never reported as 0; and whenever the raw
modular computation would yield 0 with an extraction on record (a full
wrap), the reported backlog is exactly `C`. -/
theorem observeProduction_bounds (r : FrameRing) (curr total : Nat)
    (hcap : 1 ≤ r.capacity) :
    observeProduction r curr total ≤ r.capacity
    ∧ (1 ≤ total → 1 ≤ observeProduction r curr total)
    ∧ (∀ last, r.lastConsumedIndex = some last →
        (curr : Int) % (r.capacity : Int) = (last : Int) % (r.capacity : Int) →
        observeProduction r curr total = r.capacity) := by
  have hcpos : (0 : Int) < (r.capacity : Int) := by exact_mod_cast hcap
  refine ⟨?_, ?_, ?_⟩
  · cases h : r.lastConsumedIndex with
    | none =>
      simp only [observeProduction, h]
      split <;> omega
    | some last =>
      simp only [observeProduction, h]
      set b := (((curr : Int) - (last : Int)) % (r.capacity : Int)).toNat with hb
      have hlt : ((curr : Int) - (last : Int)) % (r.capacity : Int)
          < (r.capacity : Int) := Int.emod_lt_of_pos _ hcpos
      have hble : b ≤ r.capacity := by
        rw [hb]
        omega
      split <;> omega
  · intro htot
    cases h : r.lastConsumedIndex with
    | none => simp [observeProduction, h, htot]
    | some last =>
      simp only [observeProduction, h]
      split
      · omega
      · next hne => omega
  · intro last hlast hmod
    simp only [observeProduction, hlast]
    have hz : ((curr : Int) - (last : Int)) % (r.capacity : Int) = 0 := by
      rw [Int.sub_emod, hmod, Int.sub_self, Int.zero_emod]
    simp [hz]

/-- C1, witness instance: capacity 4, last consumed index 2, current index 2
again after 5 produced frames — a full wrap — reports backlog 4 (never 0),
within bounds. -/
theorem observeProduction_bounds_witness :
    observeProduction ⟨4, some 2⟩ 2 5 ≤ 4
    ∧ 1 ≤ observeProduction ⟨4, some 2⟩ 2 5
    ∧ observeProduction ⟨4, some 2⟩ 2 5 = 4 := by
  have h := observeProduction_bounds ⟨4, some 2⟩ 2 5 (by decide)
  exact ⟨h.1, h.2.1 (by decide), h.2.2 2 rfl (by decide)⟩

/-! ### Helper lemmas for the parser theorems -/

/-- Applying `Char.toLower` never produces an ASCII uppercase letter. -/
theorem toLower_isUpper_false (c : Char) : (Char.toLower c).isUpper = false := by
  have key : ∀ n, n < 123 → 97 ≤ n → (Char.ofNat n).isUpper = false := by decide
  unfold Char.toLower
  simp only []
  by_cases h : c.toNat ≥ 65 ∧ c.toNat ≤ 90
  · rw [if_pos h]
    exact key (Char.toNat c + 32) (by omega) (by omega)
  · rw [if_neg h]
    simp only [Char.isUpper, Bool.and_eq_false_iff, decide_eq_false_iff_not,
      Char.toNat] at *
    simp only [UInt32.le_def, BitVec.le_def] at *
    have e1 : (UInt32.toBitVec 65).toNat = 65 := rfl
    have e2 : (UInt32.toBitVec 90).toNat = 90 := rfl
    have e3 : c.val.toBitVec.toNat = c.val.toNat := rfl
    omega

theorem reSubAux_fst (c : Char) (rest : List Char) :
    (reSubAux (c :: rest)).1 = isHyphenOrSpace c := by
  by_cases h : isHyphenOrSpace c <;> simp [reSubAux, h]

/-- The structural `re.sub` model agrees with the maximal-run formulation. -/
theorem reSubRuns_eq_specCollapseRuns (l : List Char) :
    reSubRuns l = specCollapseRuns l := by
  induction l with
  | nil => simp [reSubRuns, reSubAux, specCollapseRuns]
  | cons c rest ih =>
    by_cases hc : isHyphenOrSpace c
    · cases rest with
      | nil => simp [reSubRuns, reSubAux, specCollapseRuns, hc]
      | cons b rest' =>
        simp only [specCollapseRuns, if_pos hc]
        by_cases hb : isHyphenOrSpace b
        · have lhs : reSubRuns (c :: b :: rest') = reSubRuns (b :: rest') := by
            simp [reSubRuns, reSubAux, hc, hb]
          rw [lhs, ih]
          simp only [specCollapseRuns, if_pos hb]
          simp [List.dropWhile_cons, hb]
        · have lhs : reSubRuns (c :: b :: rest') = '_' :: reSubRuns (b :: rest') := by
            simp [reSubRuns, reSubAux, hc, hb]
          rw [lhs, ih]
          simp [List.dropWhile_cons, hb]
    · have lhs : reSubRuns (c :: rest) = c :: reSubRuns rest := by
        simp [reSubRuns, reSubAux, hc]
      rw [lhs, ih]
      simp only [specCollapseRuns, if_neg hc]

theorem mem_reSubRuns {c : Char} {l : List Char} (h : c ∈ reSubRuns l) :
    c = '_' ∨ c ∈ l := by
  induction l with
  | nil => simp [reSubRuns, reSubAux] at h
  | cons a rest ih =>
    by_cases ha : isHyphenOrSpace a
    · simp only [reSubRuns, reSubAux, ha, if_true] at h
      by_cases hp : (reSubAux rest).1
      · simp only [hp, if_true] at h
        rcases ih h with h1 | h1
        · exact Or.inl h1
        · exact Or.inr (List.mem_cons_of_mem a h1)
      · simp only [hp] at h
        rw [if_neg (by simp [hp])] at h
        rcases List.mem_cons.mp h with h1 | h1
        · exact Or.inl h1
        · rcases ih h1 with h2 | h2
          · exact Or.inl h2
          · exact Or.inr (List.mem_cons_of_mem a h2)
    · simp only [reSubRuns, reSubAux, ha, if_false] at h
      rcases List.mem_cons.mp h with h1 | h1
      · exact Or.inr (by simp [h1])
      · rcases ih h1 with h2 | h2
        · exact Or.inl h2
        · exact Or.inr (List.mem_cons_of_mem a h2)

theorem mem_pyStripList {c : Char} {l : List Char} (h : c ∈ pyStripList l) :
    c ∈ l := by
  unfold pyStripList at h
  rw [List.mem_reverse] at h
  have h2 := List.dropWhile_subset _ h
  rw [List.mem_reverse] at h2
  exact List.dropWhile_subset _ h2

/-- Every character of a normalized name is a lowercase letter, a digit or
an underscore. -/
theorem normalizeName_chars (s : String) :
    ∀ c ∈ (normalizeName s).data, isKeyChar c = true := by
  intro c hc
  simp only [normalizeName] at hc
  rw [List.mem_filter] at hc
  obtain ⟨hmem, hword⟩ := hc
  by_cases hu : c = '_'
  · simp [isKeyChar, hu]
  · rcases mem_reSubRuns hmem with h1 | h1
    · exact absurd h1 hu
    · have h2 : c ∈ (s.data.map Char.toLower).takeWhile (fun c => c ≠ '(') :=
        mem_pyStripList h1
      have h3 : c ∈ s.data.map Char.toLower := List.takeWhile_subset _ h2
      obtain ⟨a, _, ha⟩ := List.mem_map.mp h3
      have hup : c.isUpper = false := ha ▸ toLower_isUpper_false a
      simp only [Char.isAlphanum, Char.isAlpha, hup, Bool.false_or,
        Bool.or_eq_true, decide_eq_true_eq, hu, or_false] at hword
      simp [isKeyChar]
      tauto

/-- Every key a `0x` line yields is a normalized name. -/
theorem parse0xLine_key (line : List Char) (k : String) (v : ParamInfo)
    (h : parse0xLine line = some (k, v)) : ∃ d, k = normalizeName d := by
  unfold parse0xLine at h
  cases h1 : splitFirst '=' line with
  | none => simp [h1] at h
  | some p =>
    simp only [h1, Option.some_bind] at h
    cases h2 : parseHexNat p.1 with
    | none => simp [h2] at h
    | some pid =>
      simp only [h2, Option.some_bind] at h
      split at h
      · rw [Option.map_eq_some'] at h
        obtain ⟨a, ha, hfa⟩ := h
        exact ⟨_, ((Prod.mk.injEq _ _ _ _).mp hfa).1.symm⟩
      · simp at h

/-- Keys of `insertParam m k v` are `k` or keys of `m`. -/
theorem mem_insertParam {m : ParamMap} {k k' : String} {v v' : ParamInfo}
    (h : (k', v') ∈ insertParam m k v) : k' = k ∨ (k', v') ∈ m := by
  unfold insertParam at h
  split at h
  · obtain ⟨p, hp, heq⟩ := List.mem_map.mp h
    by_cases hk : p.1 = k
    · rw [if_pos hk] at heq
      left
      exact (Prod.mk.injEq _ _ _ _ |>.mp heq).1.symm
    · rw [if_neg hk] at heq
      right
      rwa [heq] at hp
  · rcases List.mem_append.mp h with h1 | h1
    · exact Or.inr h1
    · left
      rcases List.mem_singleton.mp h1 with h2
      exact (Prod.mk.injEq _ _ _ _ |>.mp h2).1

/-- Lines not starting with `0x` never change the accumulated map. -/
theorem getParamsGo_filter (lines : List (List Char)) (acc : ParamMap) :
    getParamsGo lines acc = getParamsGo (lines.filter startsWith0x) acc := by
  induction lines generalizing acc with
  | nil => rfl
  | cons l rest ih =>
    by_cases hs : startsWith0x l
    · rw [List.filter_cons_of_pos hs]
      simp only [getParamsGo]
      cases hp : parseParamLine l with
      | error e => rfl
      | ok o =>
        cases o with
        | none => exact ih acc
        | some kv => exact ih (insertParam acc kv.1 kv.2)
    · rw [List.filter_cons_of_neg (by simp [hs])]
      have hp : parseParamLine l = .ok none := by
        simp [parseParamLine, hs]
      simp only [getParamsGo, hp]
      exact ih acc

/-- The loop preserves well-formedness of the keys in the accumulator. -/
theorem getParamsGo_good (lines : List (List Char)) (acc m : ParamMap)
    (hacc : ∀ k v, (k, v) ∈ acc → ∀ c ∈ k.data, isKeyChar c = true)
    (h : getParamsGo lines acc = some m) :
    ∀ k v, (k, v) ∈ m → ∀ c ∈ k.data, isKeyChar c = true := by
  induction lines generalizing acc with
  | nil =>
    simp only [getParamsGo, Option.some_inj] at h
    exact h ▸ hacc
  | cons l rest ih =>
    simp only [getParamsGo] at h
    cases hp : parseParamLine l with
    | error e => rw [hp] at h; exact absurd h (by simp)
    | ok o =>
      rw [hp] at h
      cases o with
      | none => exact ih acc hacc h
      | some kv =>
        refine ih (insertParam acc kv.1 kv.2) ?_ h
        intro k v hkv c hc
        rcases mem_insertParam hkv with h1 | h1
        · have hkey : ∃ d, kv.1 = normalizeName d := by
            unfold parseParamLine at hp
            split at hp
            · split at hp
              · next e heq =>
                have he : e = kv := by
                  injection hp with h2
                  injection h2
                exact he ▸ parse0xLine_key l e.1 e.2 heq
              · exact absurd hp (by simp)
            · exfalso
              injection hp with h2
              simp at h2
          obtain ⟨d, hd⟩ := hkey
          rw [h1, hd] at hc
          exact normalizeName_chars d c hc
        · exact hacc k v h1 c hc

/-- C5 counterexample: for the display name `Device S/N` (an example from
the driver's own comment) the stored catalog key is `device_sn` — the slash
is removed — while lower-casing with whitespace-to-underscore alone would
give `device_s/n`. -/
theorem paramKey_counterexample :
    getAvailableParameters "0x1=0\t1\tint\tf\tDevice S/N"
      = some [("device_sn", { pid := 1, dtype := "int", maxItem := 1 })]
    ∧ specKeyOf "Device S/N" = "device_s/n"
    ∧ normalizeName "Device S/N" ≠ specKeyOf "Device S/N" := by
  refine ⟨by decide, by decide, by decide⟩

/-- C5 amended: the lookup key is the display name lower-cased, truncated at
the first `(`, stripped of surrounding whitespace, with each maximal run of
hyphens/whitespace replaced by one underscore and every remaining character
outside `[0-9a-zA-Z_]` removed — shown equal to an independent formulation
of that description and checked on the driver's three documented examples. -/
theorem normalizeName_spec :
    (∀ s, normalizeName s = specNormalizedKey s)
    ∧ normalizeName "Device S/N" = "device_sn"
    ∧ normalizeName "Closed-Loop Deceleration For HI Control (Phys. Unit/s2)"
      = "closed_loop_deceleration_for_hi_control"
    ∧ normalizeName "Is Rotary Stage?" = "is_rotary_stage" := by
  refine ⟨?_, by decide, by decide, by decide⟩
  intro s
  simp only [normalizeName, specNormalizedKey, reSubRuns_eq_specCollapseRuns]

/-- C7: parameter discovery is idempotent on an open session — once a first
invocation has produced a map (now cached by `lru_cache(maxsize=1)`), any
second invocation returns the same name-to-(id, dtype, element-count) map,
whatever the device would answer in between. -/
theorem getAvailableParametersCached_idempotent
    (q1 q2 : Nat → Except String String) (s : PIControllerState) (m : ParamMap)
    (h : (getAvailableParametersCached q1 s).1 = some m) :
    (getAvailableParametersCached q2 (getAvailableParametersCached q1 s).2).1
      = some m := by
  unfold getAvailableParametersCached at *
  cases hc : s.paramsCache with
  | some m0 =>
    rw [hc] at h
    simp_all
  | none =>
    rw [hc] at h
    cases hd : getAvailableParametersFromDevice q1 with
    | none => simp [hd] at h
    | some m1 =>
      rw [hd] at h
      simp_all

/-- C7, witness instance: the first discovery parses one parameter; a second
invocation — even against a now-failing device — returns the same map. -/
theorem getAvailableParametersCached_idempotent_witness :
    (getAvailableParametersCached (fun _ => .error "timeout")
      (getAvailableParametersCached (fun _ => .ok "0x1=0\t1\tINT\tf\tName")
        initController).2).1
      = some [("name", { pid := 1, dtype := "int", maxItem := 1 })] :=
  getAvailableParametersCached_idempotent
    (fun _ => .ok "0x1=0\t1\tINT\tf\tName") (fun _ => .error "timeout")
    initController [("name", { pid := 1, dtype := "int", maxItem := 1 })]
    (by decide)

/-- C9: every key of a successfully parsed parameter map consists only of
lowercase letters, digits and underscores, and the map is exactly what the
`0x`-prefixed response lines contribute (all other lines are skipped). -/
theorem getAvailableParameters_keys (response : String) (m : ParamMap)
    (h : getAvailableParameters response = some m) :
    (∀ k v, (k, v) ∈ m → ∀ c ∈ k.data, isKeyChar c = true)
    ∧ getParamsGo ((splitChar '\n' response.data).filter startsWith0x) []
      = some m := by
  constructor
  · exact getParamsGo_good _ _ _ (by simp) h
  · rw [← getParamsGo_filter]
    exact h

/-- C9, witness instance: a response with a non-`0x` header line and one
parameter line whose display name carries a hyphen and a parenthesized
unit. -/
theorem getAvailableParameters_keys_witness :
    (∀ c ∈ ("max_speed" : String).data, isKeyChar c = true)
    ∧ getParamsGo ((splitChar '\n'
        ("ver\n0x2=0\t2\tFLOAT\tf\tMax-Speed (phys)" : String).data).filter
        startsWith0x) []
      = some [("max_speed", { pid := 2, dtype := "float", maxItem := 2 })] := by
  have h := getAvailableParameters_keys "ver\n0x2=0\t2\tFLOAT\tf\tMax-Speed (phys)"
    [("max_speed", { pid := 2, dtype := "float", maxItem := 2 })] (by decide)
  exact ⟨h.1 "max_speed" { pid := 2, dtype := "float", maxItem := 2 } (by decide),
    h.2⟩

end Olive
